import Mathlib

/-!
Shallow embedding of `packages/dev-server/src/MetroDevServer.ts`.

The module under verification is orchestration glue around an external
bundler (Metro) and an external bytecode compiler (Hermes).  We embed the
three exported operations:

* `runMetroDevServerAsync` — only its middleware-merging logic is modelled
  (`mergedEnhanceMiddleware`), since the rest is external I/O;
* `bundleAsync` — modelled as a trace-producing interpreter
  (`bundleAsync`): external calls (Metro builds, Hermes compiles,
  reporter events, server shutdown) are recorded as `Event`s, and the
  behaviour of the external collaborators is supplied by an `Env` of
  oracles;
* `attachInspectorProxy` — modelled as `attachInspectorProxy`,
  recording which WebSocket-binding method is selected and the middleware
  insertion.

Concurrency of `Promise.all` is modelled by an arbitrary interleaving of
the per-target build traces, chosen by a `schedule` parameter
(`scheduleMerge`); the post-build Hermes loop is sequential, exactly as in
the source.
-/

namespace MetroDevServer

/-- The `platform` field of `BundleOptions`: `'android' | 'ios' | 'web'`. -/
inductive Platform
  | android
  | ios
  | web
deriving DecidableEq, Repr

/-- `BundleOptions` from the source: entry point, platform, and optional
`dev`, `minify`, `sourceMapUrl` fields (optional TS fields become `Option`). -/
structure BundleOptions where
  entryPoint : String
  platform : Platform
  dev : Option Bool := none
  minify : Option Bool := none
  sourceMapUrl : Option String := none
deriving DecidableEq, Repr

/-- `BundleAssetWithFileHashes`: only the `fileHashes` payload is modelled;
the rest of `Metro.AssetData` is opaque to this module. -/
structure BundleAsset where
  fileHashes : List String
deriving DecidableEq, Repr

/-- `BundleOutput` from the source.  `hermesBytecodeBundle : Uint8Array` is
modelled as a list of bytes. -/
structure BundleOutput where
  code : String
  map : String
  hermesBytecodeBundle : Option (List Nat) := none
  hermesSourcemap : Option String := none
  assets : List BundleAsset := []
deriving DecidableEq, Repr

/-- The subset of `Metro.BundleOptions` that `buildAsync` constructs
explicitly (lines 111–131 of the source). -/
structure MetroBundleOptions where
  bundleType : String
  platform : Platform
  entryFile : String
  dev : Bool
  minify : Bool
  inlineSourceMap : Bool
  sourceMapUrl : Option String
deriving DecidableEq, Repr

/-- The `bundleDetails` payload of the `bundle_build_started` report
(lines 135–141 of the source). -/
structure BundleDetails where
  bundleType : String
  platform : Platform
  entryFile : String
  dev : Bool
  minify : Bool
deriving DecidableEq, Repr

/-- JavaScript boolean negation applied to a `boolean | undefined` value:
`!undefined = true`, `!false = true`, `!true = false`. -/
def jsNot (o : Option Bool) : Bool :=
  !(o.getD false)

/-- The object literal passed to `metroServer.build` (source lines
111–131): `dev: bundle.dev ?? false`, `minify: bundle.minify ?? !bundle.dev`. -/
def mkMetroBundleOptions (bundle : BundleOptions) : MetroBundleOptions :=
  { bundleType := "bundle"
    platform := bundle.platform
    entryFile := bundle.entryPoint
    dev := bundle.dev.getD false
    minify := bundle.minify.getD (jsNot bundle.dev)
    inlineSourceMap := false
    sourceMapUrl := bundle.sourceMapUrl }

/-- Observable actions of one `bundleAsync` invocation: reporter events,
calls into the Metro server, the Hermes engine check and compile, the
informational log line, and the `metroServer.end()` shutdown. -/
inductive Event
  | reportStarted (buildID : String) (details : BundleDetails)
  | reportProgressed (buildID : String) (transformed total : Nat)
  | reportDone (buildID : String)
  | metroBuildCall (opts : MetroBundleOptions)
  | getAssetsCall (opts : MetroBundleOptions)
  | engineCheckCall (configFilePath : String) (platform : Platform) (isHermesManaged : Bool)
  | logHermesInfo (platform : Platform)
  | hermesCompileStart (idx : Nat) (code map : String) (minify : Option Bool)
  | hermesCompileEnd (idx : Nat)
  | metroServerEnd
deriving DecidableEq, Repr

/-- Failures that abort a `bundleAsync` batch: a Metro build rejection, the
engine-consistency error (which carries the config file path named in its
message), or a Hermes compile rejection. -/
inductive BundleError
  | buildFailure (msg : String)
  | inconsistentEngine (configFilePath : String) (platform : Platform)
  | hermesFailure (msg : String)
deriving DecidableEq, Repr

/-- Behaviour of the external collaborators of `bundleAsync`, indexed by the
position of the bundle request in the input list.

`isEnableHermesManaged` and `engineConsistent` are modelled from the spec:
`isEnableHermesManaged(expoConfig, platform)` (whether the app configuration
enables the Hermes runtime for the platform) and
`maybeThrowFromInconsistentEngineAsync` (which rejects on a mismatch between
the declared app engine and the per-platform bytecode setting) live in
`HermesBundler.ts`, which is not part of this fragment; only their call
sites are. -/
structure Env where
  /-- Result of `metroServer.build` for the i-th request: code and map, or a
  rejection. -/
  buildResult : Nat → Except String (String × String)
  /-- Result of `metroServer.getAssets` for the i-th request. -/
  assets : Nat → List BundleAsset
  /-- The `onProgress (transformedFileCount, totalFileCount)` callbacks Metro
  issues while building the i-th request. -/
  progress : Nat → List (Nat × Nat)
  /-- Modelled from the spec: whether the app config enables the Hermes
  runtime for a platform (`isEnableHermesManaged`). -/
  isEnableHermesManaged : Platform → Bool
  /-- Modelled from the spec: whether `maybeThrowFromInconsistentEngineAsync`
  resolves (true) or rejects with the engine-mismatch error (false), given
  the platform and the `isHermesManaged` flag passed to it. -/
  engineConsistent : Platform → Bool → Bool
  /-- Result of `buildHermesBundleAsync` for the i-th request: bytecode and
  sourcemap, or a rejection. -/
  hermesResult : Nat → Except String (List Nat × String)
  /-- `getConfigFilePaths(projectRoot).dynamicConfigPath`. -/
  dynamicConfigPath : Option String := none
  /-- `getConfigFilePaths(projectRoot).staticConfigPath`. -/
  staticConfigPath : Option String := none
  /-- `options.quiet`. -/
  quiet : Bool := false

/-- `paths.dynamicConfigPath ?? paths.staticConfigPath ?? 'app.json'`
(source line 162). -/
def configFilePath (env : Env) : String :=
  env.dynamicConfigPath.getD (env.staticConfigPath.getD "app.json")

/-- The inner `buildAsync` closure of `bundleAsync` (source lines 110–152),
for the request at position `idx`: emits `bundle_build_started` (whose
details report `minify: bundle.minify ?? false`), calls
`metroServer.build` with `mkMetroBundleOptions bundle` (progress callbacks
are forwarded to the reporter unless `options.quiet`), then on success
fetches assets, emits `bundle_build_done`, and returns the bundle output
with no Hermes fields. -/
def buildAsync (env : Env) (buildID : String) (idx : Nat) (bundle : BundleOptions) :
    List Event × Except BundleError BundleOutput :=
  let bundleOptions := mkMetroBundleOptions bundle
  let startedEv : Event := .reportStarted buildID
    { bundleType := bundleOptions.bundleType
      platform := bundle.platform
      entryFile := bundle.entryPoint
      dev := bundle.dev.getD false
      minify := bundle.minify.getD false }
  let progressEvs : List Event :=
    if env.quiet then []
    else (env.progress idx).map fun p => .reportProgressed buildID p.1 p.2
  match env.buildResult idx with
  | .error msg =>
      (startedEv :: .metroBuildCall bundleOptions :: progressEvs,
       .error (.buildFailure msg))
  | .ok (code, map) =>
      (startedEv :: .metroBuildCall bundleOptions :: progressEvs
         ++ [.getAssetsCall bundleOptions, .reportDone buildID],
       .ok { code := code, map := map, assets := env.assets idx })

/-- The inner `maybeAddHermesBundleAsync` closure (source lines 154–188) for
the request at position `idx`: always awaits the engine-consistency check
(with the resolved config file path); when the platform is Hermes-managed it
logs, calls `buildHermesBundleAsync` with the RAW `bundle.minify` option
(source line 182), and attaches the bytecode and its sourcemap to the
bundle output. -/
def maybeAddHermesBundleAsync (env : Env) (idx : Nat) (bundle : BundleOptions)
    (bundleOutput : BundleOutput) : List Event × Except BundleError BundleOutput :=
  let platform := bundle.platform
  let isHermesManaged := env.isEnableHermesManaged platform
  let cfp := configFilePath env
  let checkEv : Event := .engineCheckCall cfp platform isHermesManaged
  if env.engineConsistent platform isHermesManaged then
    if isHermesManaged then
      match env.hermesResult idx with
      | .error msg =>
          ([checkEv, .logHermesInfo platform,
            .hermesCompileStart idx bundleOutput.code bundleOutput.map bundle.minify],
           .error (.hermesFailure msg))
      | .ok (hbc, sourcemap) =>
          ([checkEv, .logHermesInfo platform,
            .hermesCompileStart idx bundleOutput.code bundleOutput.map bundle.minify,
            .hermesCompileEnd idx],
           .ok { bundleOutput with
                  hermesBytecodeBundle := some hbc
                  hermesSourcemap := some sourcemap })
    else
      ([checkEv], .ok bundleOutput)
  else
    ([checkEv], .error (.inconsistentEngine cfp platform))

/-- Traces of the concurrently started per-target builds
(`bundles.map(bundle => buildAsync(bundle))`), starting at position `idx`. -/
def phase1Traces (env : Env) (buildID : String) : Nat → List BundleOptions → List (List Event)
  | _, [] => []
  | idx, b :: bs =>
      (buildAsync env buildID idx b).1 :: phase1Traces env buildID (idx + 1) bs

/-- Results of the concurrently started per-target builds, starting at
position `idx`. -/
def phase1Results (env : Env) (buildID : String) :
    Nat → List BundleOptions → List (Except BundleError BundleOutput)
  | _, [] => []
  | idx, b :: bs =>
      (buildAsync env buildID idx b).2 :: phase1Results env buildID (idx + 1) bs

/-- `Promise.all`: resolves with all values, or rejects as soon as any
constituent rejects. -/
def collectResults : List (Except BundleError BundleOutput) →
    Except BundleError (List BundleOutput)
  | [] => .ok []
  | r :: rs =>
      match r with
      | .error e => .error e
      | .ok o =>
          match collectResults rs with
          | .error e => .error e
          | .ok os => .ok (o :: os)

/-- An arbitrary interleaving of the per-build event traces, directed by a
`schedule` of list indices (the cooperative scheduler's choices); once the
schedule is exhausted the remaining events drain in list order.  Any
interleaving of the concurrent builds is `scheduleMerge ls s` for some `s`. -/
def scheduleMerge (ls : List (List Event)) : List Nat → List Event
  | [] => ls.flatten
  | i :: s =>
      match ls[i]? with
      | some (e :: rest) => e :: scheduleMerge (ls.set i rest) s
      | _ => scheduleMerge ls s

/-- The sequential post-build loop of `bundleAsync` (source lines 193–197):
`bundleOutputs.push(await maybeAddHermesBundleAsync(bundles[i], intermediateOutputs[i]))`,
one target at a time, aborting at the first rejection.  `idx` is the
absolute position of the head of `bs`. -/
def hermesLoop (env : Env) : List BundleOptions → List BundleOutput → Nat →
    List Event × Except BundleError (List BundleOutput)
  | [], _, _ => ([], .ok [])
  | _ :: _, [], _ => ([], .ok [])
  | b :: bs, o :: os, idx =>
      let step := maybeAddHermesBundleAsync env idx b o
      match step.2 with
      | .error e => (step.1, .error e)
      | .ok o' =>
          let rest := hermesLoop env bs os (idx + 1)
          match rest.2 with
          | .error e => (step.1 ++ rest.1, .error e)
          | .ok os' => (step.1 ++ rest.1, .ok (o' :: os'))

/-- `bundleAsync` (source lines 93–202): run all builds concurrently (their
traces interleaved by `schedule`), then — only if every build resolved —
run the Hermes post-processing sequentially; in every case the `finally`
block runs `metroServer.end()` exactly once before the result or the error
propagates. -/
def bundleAsync (env : Env) (buildID : String) (bundles : List BundleOptions)
    (schedule : List Nat) : List Event × Except BundleError (List BundleOutput) :=
  let p1trace := scheduleMerge (phase1Traces env buildID 0 bundles) schedule
  match collectResults (phase1Results env buildID 0 bundles) with
  | .error e => (p1trace ++ [.metroServerEnd], .error e)
  | .ok intermediateOutputs =>
      let hermes := hermesLoop env bundles intermediateOutputs 0
      (p1trace ++ hermes.1 ++ [.metroServerEnd], hermes.2)

/-- The end-to-end processing of a single request at position `idx`: the
Metro build followed by the Hermes post-processing step, `none` if either
stage rejects.  `bundleAsync` returns exactly this for each position. -/
def processTarget (env : Env) (buildID : String) (idx : Nat) (bundle : BundleOptions) :
    Option BundleOutput :=
  match (buildAsync env buildID idx bundle).2 with
  | .error _ => none
  | .ok o =>
      match (maybeAddHermesBundleAsync env idx bundle o).2 with
      | .error _ => none
      | .ok o' => some o'

/-- The merged `enhanceMiddleware` that `runMetroDevServerAsync` installs
(source lines 66–73): apply the config's own enhancer first when present,
then wrap the result with the base middleware stack via `middleware.use`.
`α` is the type of middleware, `σ` the type of the Metro server argument,
and `useBase` the (external) `middleware.use` of the base stack. -/
def mergedEnhanceMiddleware {α σ : Type} (useBase : α → α)
    (customEnhanceMiddleware : Option (α → σ → α)) (metroMiddleware : α) (server : σ) : α :=
  useBase
    (match customEnhanceMiddleware with
     | some f => f metroMiddleware server
     | none => metroMiddleware)

/-- The capabilities of the external `InspectorProxy` object probed by
`attachInspectorProxy` with the `in` operator, plus its `processRequest`
handler (of opaque type `ρ`). -/
structure InspectorProxy (ρ : Type) where
  hasAddWebSocketListener : Bool
  hasCreateWebSocketListeners : Bool
  processRequest : ρ
deriving Repr

/-- Observable actions of `attachInspectorProxy`: binding WebSockets via one
of the two version-dependent methods, and inserting the proxy's request
handler into the middleware chain. -/
inductive ProxyAction (ρ : Type)
  | addWebSocketListener
  | createWebSocketListeners
  | middlewareUse (handler : ρ)
deriving Repr

/-- `attachInspectorProxy` (source lines 215–236): prefer
`addWebSocketListener` when present, else `createWebSocketListeners` when
present, else bind nothing; always `middleware.use` the proxy's
`processRequest`; return `{ inspectorProxy }`. -/
def attachInspectorProxy {ρ : Type} (inspectorProxy : InspectorProxy ρ) :
    List (ProxyAction ρ) × InspectorProxy ρ :=
  let bindActions : List (ProxyAction ρ) :=
    if inspectorProxy.hasAddWebSocketListener then
      [.addWebSocketListener]
    else if inspectorProxy.hasCreateWebSocketListeners then
      [.createWebSocketListeners]
    else
      []
  (bindActions ++ [.middlewareUse inspectorProxy.processRequest], inspectorProxy)

/-! ### Event classifiers used to state the claims -/

/-- Recognises the `metroServer.end()` shutdown event. -/
def isMetroServerEnd : Event → Bool
  | .metroServerEnd => true
  | _ => false

/-- Recognises any `bundle_transform_progressed` reporter event. -/
def isProgressEvent : Event → Bool
  | .reportProgressed _ _ _ => true
  | _ => false

/-- Recognises a `bundle_build_started` reporter event carrying the given
build identifier. -/
def isStartedFor (buildID : String) : Event → Bool
  | .reportStarted b _ => b == buildID
  | _ => false

/-- Recognises a `bundle_build_done` reporter event carrying the given build
identifier. -/
def isDoneFor (buildID : String) : Event → Bool
  | .reportDone b => b == buildID
  | _ => false

/-- The build identifier carried by a reporter event, `none` for non-reporter
events. -/
def reportBid : Event → Option String
  | .reportStarted b _ => some b
  | .reportProgressed b _ _ => some b
  | .reportDone b => some b
  | _ => none

/-- Recognises a `buildHermesBundleAsync` invocation event. -/
def isHermesStart : Event → Bool
  | .hermesCompileStart _ _ _ _ => true
  | _ => false

/-- Events that the concurrent per-target Metro builds can emit. -/
def isPhase1Event : Event → Bool
  | .reportStarted _ _ => true
  | .reportProgressed _ _ _ => true
  | .reportDone _ => true
  | .metroBuildCall _ => true
  | .getAssetsCall _ => true
  | _ => false

/-- Events that the sequential Hermes post-processing loop can emit. -/
def isHermesPhaseEvent : Event → Bool
  | .engineCheckCall _ _ _ => true
  | .logHermesInfo _ => true
  | .hermesCompileStart _ _ _ _ => true
  | .hermesCompileEnd _ => true
  | _ => false

/-! ### Classifier facts -/

lemma isPhase1Event_not_end {e : Event} (h : isPhase1Event e = true) :
    isMetroServerEnd e = false := by
  cases e <;> simp_all [isPhase1Event, isMetroServerEnd]

lemma isPhase1Event_not_hermesStart {e : Event} (h : isPhase1Event e = true) :
    isHermesStart e = false := by
  cases e <;> simp_all [isPhase1Event, isHermesStart]

lemma isHermesPhaseEvent_not_end {e : Event} (h : isHermesPhaseEvent e = true) :
    isMetroServerEnd e = false := by
  cases e <;> simp_all [isHermesPhaseEvent, isMetroServerEnd]

lemma isHermesPhaseEvent_not_report {e : Event} (h : isHermesPhaseEvent e = true) :
    reportBid e = none := by
  cases e <;> simp_all [isHermesPhaseEvent, reportBid]

lemma reportBid_none_not_progress {e : Event} (h : reportBid e = none) :
    isProgressEvent e = false := by
  cases e <;> simp_all [reportBid, isProgressEvent]

lemma reportBid_none_not_started {bid : String} {e : Event} (h : reportBid e = none) :
    isStartedFor bid e = false := by
  cases e <;> simp_all [reportBid, isStartedFor]

lemma reportBid_none_not_done {bid : String} {e : Event} (h : reportBid e = none) :
    isDoneFor bid e = false := by
  cases e <;> simp_all [reportBid, isDoneFor]

/-! ### Per-call trace facts -/

/-- Closed form of the event trace of one `buildAsync` call: the started
report, the Metro build call, the (possibly suppressed) progress reports,
and — only when the build resolves — the asset fetch and the done report. -/
lemma buildAsync_trace_spec (env : Env) (buildID : String) (idx : Nat)
    (bundle : BundleOptions) :
    (buildAsync env buildID idx bundle).1 =
      Event.reportStarted buildID
          { bundleType := "bundle", platform := bundle.platform,
            entryFile := bundle.entryPoint, dev := bundle.dev.getD false,
            minify := bundle.minify.getD false } ::
        Event.metroBuildCall (mkMetroBundleOptions bundle) ::
        ((if env.quiet then [] else
            (env.progress idx).map fun p => Event.reportProgressed buildID p.1 p.2) ++
          match env.buildResult idx with
          | .error _ => []
          | .ok _ => [Event.getAssetsCall (mkMetroBundleOptions bundle),
                      Event.reportDone buildID]) := by
  rcases hb : env.buildResult idx with msg | ⟨c, m⟩ <;>
    simp [buildAsync, hb, mkMetroBundleOptions]

lemma buildAsync_trace_phase1 (env : Env) (buildID : String) (idx : Nat)
    (bundle : BundleOptions) :
    ∀ e ∈ (buildAsync env buildID idx bundle).1, isPhase1Event e = true := by
  intro e he
  rw [buildAsync_trace_spec] at he
  rcases List.mem_cons.mp he with rfl | he
  · rfl
  rcases List.mem_cons.mp he with rfl | he
  · rfl
  rcases List.mem_append.mp he with he | he
  · split at he
    · simp at he
    · rcases List.mem_map.mp he with ⟨p, _, rfl⟩
      rfl
  · split at he
    · simp at he
    · rcases List.mem_cons.mp he with rfl | he
      · rfl
      rcases List.mem_cons.mp he with rfl | he
      · rfl
      simp at he

/-- Pulling the head of the `i`-th list to the front is a permutation of the
flattened lists. -/
lemma flatten_set_cons_perm {α : Type} :
    ∀ (ls : List (List α)) (i : Nat) (e : α) (rest : List α),
      ls[i]? = some (e :: rest) →
      (e :: (ls.set i rest).flatten).Perm ls.flatten := by
  intro ls
  induction ls with
  | nil => intro i e rest h; simp at h
  | cons hd tl ih =>
    intro i e rest h
    cases i with
    | zero =>
      simp only [List.getElem?_cons_zero, Option.some.injEq] at h
      subst h
      simp only [List.set_cons_zero, List.flatten_cons, List.cons_append]
      exact List.Perm.refl _
    | succ n =>
      simp only [List.getElem?_cons_succ] at h
      have hperm := ih n e rest h
      simp only [List.set_cons_succ, List.flatten_cons]
      exact List.Perm.trans List.perm_middle.symm (hperm.append_left hd)

/-- Any schedule-directed interleaving of the per-build traces is a
permutation of their concatenation. -/
lemma scheduleMerge_perm : ∀ (s : List Nat) (ls : List (List Event)),
    (scheduleMerge ls s).Perm ls.flatten := by
  intro s
  induction s with
  | nil => intro ls; simp only [scheduleMerge]; exact List.Perm.refl _
  | cons i s ih =>
    intro ls
    rcases h : ls[i]? with _ | l
    · simp only [scheduleMerge, h]
      exact ih ls
    · cases l with
      | nil => simp only [scheduleMerge, h]; exact ih ls
      | cons e rest =>
        simp only [scheduleMerge, h]
        exact ((ih (ls.set i rest)).cons e).trans (flatten_set_cons_perm ls i e rest h)

lemma scheduleMerge_mem (ls : List (List Event)) (s : List Nat) (e : Event) :
    e ∈ scheduleMerge ls s ↔ e ∈ ls.flatten :=
  (scheduleMerge_perm s ls).mem_iff

lemma scheduleMerge_countP (ls : List (List Event)) (s : List Nat) (p : Event → Bool) :
    (scheduleMerge ls s).countP p = ls.flatten.countP p :=
  (scheduleMerge_perm s ls).countP_eq p

/-! ### Phase-1 (concurrent builds) facts -/

lemma phase1Traces_length (env : Env) (buildID : String) :
    ∀ (bs : List BundleOptions) (idx : Nat),
      (phase1Traces env buildID idx bs).length = bs.length := by
  intro bs
  induction bs with
  | nil => intro idx; simp [phase1Traces]
  | cons b bs ih => intro idx; simp [phase1Traces, ih (idx + 1)]

lemma phase1Results_length (env : Env) (buildID : String) :
    ∀ (bs : List BundleOptions) (idx : Nat),
      (phase1Results env buildID idx bs).length = bs.length := by
  intro bs
  induction bs with
  | nil => intro idx; simp [phase1Results]
  | cons b bs ih => intro idx; simp [phase1Results, ih (idx + 1)]

lemma phase1Results_getElem? (env : Env) (buildID : String) :
    ∀ (bs : List BundleOptions) (idx j : Nat),
      (phase1Results env buildID idx bs)[j]? =
        (bs[j]?).map fun b => (buildAsync env buildID (idx + j) b).2 := by
  intro bs
  induction bs with
  | nil => intro idx j; simp [phase1Results]
  | cons b bs ih =>
    intro idx j
    cases j with
    | zero => simp [phase1Results]
    | succ n =>
      have harith : idx + 1 + n = idx + (n + 1) := by omega
      simp only [phase1Results, List.getElem?_cons_succ, ih (idx + 1) n, harith]

lemma phase1_flatten_phase1 (env : Env) (buildID : String) :
    ∀ (bs : List BundleOptions) (idx : Nat),
      ∀ e ∈ (phase1Traces env buildID idx bs).flatten, isPhase1Event e = true := by
  intro bs
  induction bs with
  | nil => intro idx e he; simp [phase1Traces] at he
  | cons b bs ih =>
    intro idx e he
    simp only [phase1Traces, List.flatten_cons, List.mem_append] at he
    rcases he with he | he
    · exact buildAsync_trace_phase1 env buildID idx b e he
    · exact ih (idx + 1) e he

/-- Closed form of the result of one `buildAsync` call. -/
lemma buildAsync_result_spec (env : Env) (buildID : String) (idx : Nat)
    (bundle : BundleOptions) :
    (buildAsync env buildID idx bundle).2 =
      match env.buildResult idx with
      | .error msg => .error (.buildFailure msg)
      | .ok (code, map) => .ok { code := code, map := map, assets := env.assets idx } := by
  rcases hb : env.buildResult idx with msg | ⟨c, m⟩ <;> simp [buildAsync, hb]

/-- A resolved Metro build yields an output with no Hermes fields, and
witnesses that the underlying build resolved. -/
lemma buildAsync_ok_fields {env : Env} {buildID : String} {idx : Nat}
    {bundle : BundleOptions} {o : BundleOutput}
    (h : (buildAsync env buildID idx bundle).2 = .ok o) :
    o.hermesBytecodeBundle = none ∧ o.hermesSourcemap = none ∧
      (env.buildResult idx).isOk = true := by
  rw [buildAsync_result_spec] at h
  rcases hb : env.buildResult idx with msg | ⟨c, m⟩ <;> rw [hb] at h
  · cases h
  · cases h
    exact ⟨rfl, rfl, rfl⟩

/-! ### `Promise.all` facts -/

lemma collectResults_ok :
    ∀ (rs : List (Except BundleError BundleOutput)) (os : List BundleOutput),
      collectResults rs = .ok os →
      os.length = rs.length ∧
        ∀ (j : Nat) (r : Except BundleError BundleOutput),
          rs[j]? = some r → ∃ o : BundleOutput, r = Except.ok o ∧ os[j]? = some o := by
  intro rs
  induction rs with
  | nil =>
    intro os h
    simp only [collectResults, Except.ok.injEq] at h
    subst h
    simp
  | cons r rs ih =>
    intro os h
    cases r with
    | error e => simp [collectResults] at h
    | ok o =>
      rw [collectResults] at h
      rcases hrs : collectResults rs with e' | os' <;> rw [hrs] at h
      · cases h
      · cases h
        obtain ⟨hlen, hidx⟩ := ih os' hrs
        refine ⟨by simp [hlen], ?_⟩
        intro j r hj
        cases j with
        | zero =>
          simp only [List.getElem?_cons_zero, Option.some.injEq] at hj
          subst hj
          exact ⟨o, rfl, by simp⟩
        | succ n =>
          simp only [List.getElem?_cons_succ] at hj
          obtain ⟨o', h1, h2⟩ := hidx n r hj
          exact ⟨o', h1, by simpa using h2⟩

lemma collectResults_all_ok :
    ∀ rs : List (Except BundleError BundleOutput),
      (∀ r ∈ rs, ∃ o, r = Except.ok o) →
      ∃ os, collectResults rs = .ok os := by
  intro rs
  induction rs with
  | nil => exact fun _ => ⟨[], rfl⟩
  | cons r rs ih =>
    intro h
    obtain ⟨o, rfl⟩ := h r (List.mem_cons_self r rs)
    obtain ⟨os, hos⟩ := ih fun r' hr => h r' (List.mem_cons_of_mem _ hr)
    exact ⟨o :: os, by simp [collectResults, hos]⟩

/-! ### `maybeAddHermesBundleAsync` case facts -/

lemma maybeAdd_engine_fail (env : Env) (idx : Nat) (b : BundleOptions) (o : BundleOutput)
    (h : env.engineConsistent b.platform (env.isEnableHermesManaged b.platform) = false) :
    maybeAddHermesBundleAsync env idx b o =
      ([.engineCheckCall (configFilePath env) b.platform (env.isEnableHermesManaged b.platform)],
       .error (.inconsistentEngine (configFilePath env) b.platform)) := by
  simp [maybeAddHermesBundleAsync, h]

lemma maybeAdd_not_managed (env : Env) (idx : Nat) (b : BundleOptions) (o : BundleOutput)
    (hman : env.isEnableHermesManaged b.platform = false)
    (hcons : env.engineConsistent b.platform false = true) :
    maybeAddHermesBundleAsync env idx b o =
      ([.engineCheckCall (configFilePath env) b.platform false], .ok o) := by
  simp [maybeAddHermesBundleAsync, hman, hcons]

lemma maybeAdd_managed_ok (env : Env) (idx : Nat) (b : BundleOptions) (o : BundleOutput)
    (hbc : List Nat) (sm : String)
    (hman : env.isEnableHermesManaged b.platform = true)
    (hcons : env.engineConsistent b.platform true = true)
    (hh : env.hermesResult idx = .ok (hbc, sm)) :
    maybeAddHermesBundleAsync env idx b o =
      ([.engineCheckCall (configFilePath env) b.platform true, .logHermesInfo b.platform,
        .hermesCompileStart idx o.code o.map b.minify, .hermesCompileEnd idx],
       .ok { o with hermesBytecodeBundle := some hbc, hermesSourcemap := some sm }) := by
  simp [maybeAddHermesBundleAsync, hman, hcons, hh]

lemma maybeAdd_managed_err (env : Env) (idx : Nat) (b : BundleOptions) (o : BundleOutput)
    (msg : String)
    (hman : env.isEnableHermesManaged b.platform = true)
    (hcons : env.engineConsistent b.platform true = true)
    (hh : env.hermesResult idx = .error msg) :
    maybeAddHermesBundleAsync env idx b o =
      ([.engineCheckCall (configFilePath env) b.platform true, .logHermesInfo b.platform,
        .hermesCompileStart idx o.code o.map b.minify],
       .error (.hermesFailure msg)) := by
  simp [maybeAddHermesBundleAsync, hman, hcons, hh]

/-- A Hermes post-processing step that resolves populates both bytecode
fields exactly when the platform is Hermes-managed. -/
lemma maybeAdd_ok_fields {env : Env} {idx : Nat} {b : BundleOptions}
    {o o' : BundleOutput}
    (h : (maybeAddHermesBundleAsync env idx b o).2 = .ok o')
    (h1 : o.hermesBytecodeBundle = none) (h2 : o.hermesSourcemap = none) :
    o'.hermesBytecodeBundle.isSome = env.isEnableHermesManaged b.platform ∧
      o'.hermesSourcemap.isSome = env.isEnableHermesManaged b.platform := by
  simp only [maybeAddHermesBundleAsync] at h
  split at h
  · split at h
    · rcases hh : env.hermesResult idx with msg | ⟨hbc, sm⟩ <;> rw [hh] at h
      · cases h
      · cases h
        simp_all
    · cases h
      simp_all
  · cases h

/-! ### `hermesLoop` structure facts -/

lemma hermesLoop_cons_error (env : Env) (b : BundleOptions) (bs : List BundleOptions)
    (o : BundleOutput) (os : List BundleOutput) (idx : Nat) (e : BundleError)
    (h : (maybeAddHermesBundleAsync env idx b o).2 = .error e) :
    hermesLoop env (b :: bs) (o :: os) idx =
      ((maybeAddHermesBundleAsync env idx b o).1, .error e) := by
  simp only [hermesLoop, h]

lemma hermesLoop_cons_ok (env : Env) (b : BundleOptions) (bs : List BundleOptions)
    (o o' : BundleOutput) (os : List BundleOutput) (idx : Nat)
    (h : (maybeAddHermesBundleAsync env idx b o).2 = .ok o') :
    hermesLoop env (b :: bs) (o :: os) idx =
      ((maybeAddHermesBundleAsync env idx b o).1 ++ (hermesLoop env bs os (idx + 1)).1,
       match (hermesLoop env bs os (idx + 1)).2 with
       | .error e => .error e
       | .ok os' => .ok (o' :: os')) := by
  simp only [hermesLoop, h]
  rcases hr : (hermesLoop env bs os (idx + 1)).2 with e | os' <;> simp [hr]

lemma maybeAddHermes_trace_hermes (env : Env) (idx : Nat) (bundle : BundleOptions)
    (o : BundleOutput) :
    ∀ e ∈ (maybeAddHermesBundleAsync env idx bundle o).1, isHermesPhaseEvent e = true := by
  intro e he
  rw [maybeAddHermesBundleAsync] at he
  split at he
  · split at he
    · rcases hh : env.hermesResult idx with msg | ⟨hbc, sm⟩ <;> simp [hh] at he <;>
        rcases he with rfl | rfl | rfl | rfl <;> rfl
    · simp at he; subst he; rfl
  · simp at he; subst he; rfl

lemma hermesLoop_trace_hermes (env : Env) :
    ∀ (bs : List BundleOptions) (os : List BundleOutput) (idx : Nat),
      ∀ e ∈ (hermesLoop env bs os idx).1, isHermesPhaseEvent e = true := by
  intro bs
  induction bs with
  | nil => intro os idx e he; simp [hermesLoop] at he
  | cons b bs ih =>
    intro os idx e he
    cases os with
    | nil => simp [hermesLoop] at he
    | cons o os =>
      rcases hstep : (maybeAddHermesBundleAsync env idx b o).2 with er | o'
      · rw [hermesLoop_cons_error env b bs o os idx er hstep] at he
        exact maybeAddHermes_trace_hermes env idx b o e he
      · rw [hermesLoop_cons_ok env b bs o o' os idx hstep] at he
        rcases List.mem_append.mp he with he | he
        · exact maybeAddHermes_trace_hermes env idx b o e he
        · exact ih os (idx + 1) e he

/-- A resolved Hermes loop produced, at every position, exactly the output of
`maybeAddHermesBundleAsync` on that position's request and intermediate
output. -/
lemma hermesLoop_ok_getElem (env : Env) :
    ∀ (bs : List BundleOptions) (os : List BundleOutput) (idx : Nat)
      (outs : List BundleOutput),
      (hermesLoop env bs os idx).2 = .ok outs →
      os.length = bs.length →
      outs.length = bs.length ∧
        ∀ (j : Nat) (b : BundleOptions) (o : BundleOutput),
          bs[j]? = some b → os[j]? = some o →
          ∃ o' : BundleOutput, outs[j]? = some o' ∧
            (maybeAddHermesBundleAsync env (idx + j) b o).2 = .ok o' := by
  intro bs
  induction bs with
  | nil =>
    intro os idx outs h _
    simp only [hermesLoop, Except.ok.injEq] at h
    subst h
    exact ⟨rfl, by intro j b o hb _; simp at hb⟩
  | cons b bs ih =>
    intro os idx outs h hlen
    cases os with
    | nil => simp at hlen
    | cons o os =>
      rcases hstep : (maybeAddHermesBundleAsync env idx b o).2 with er | o'
      · rw [hermesLoop_cons_error env b bs o os idx er hstep] at h
        cases h
      · rw [hermesLoop_cons_ok env b bs o o' os idx hstep] at h
        rcases hrest : (hermesLoop env bs os (idx + 1)).2 with er | outs' <;>
          rw [hrest] at h
        · cases h
        · cases h
          have hlen' : os.length = bs.length := by simpa using hlen
          obtain ⟨hl, hidx⟩ := ih os (idx + 1) outs' hrest hlen'
          refine ⟨by simp [hl], ?_⟩
          intro j b' o'' hb ho
          cases j with
          | zero =>
            simp only [List.getElem?_cons_zero, Option.some.injEq] at hb ho
            subst hb
            subst ho
            exact ⟨o', by simp, by simpa using hstep⟩
          | succ n =>
            simp only [List.getElem?_cons_succ] at hb ho
            obtain ⟨o3, h1, h2⟩ := hidx n b' o'' hb ho
            have harith : idx + 1 + n = idx + (n + 1) := by omega
            exact ⟨o3, by simpa using h1, by rwa [harith] at h2⟩

/-- In the sequential Hermes loop, a bytecode compilation for a later target
only starts after the compilation of every earlier Hermes-managed target has
completed.  `idx` is the absolute position of the head of `bs`. -/
lemma hermesLoop_start_after_end (env : Env) :
    ∀ (bs : List BundleOptions) (os : List BundleOutput) (idx p j : Nat)
      (c m : String) (mi : Option Bool),
      (hermesLoop env bs os idx).1[p]? = some (.hermesCompileStart j c m mi) →
      ∀ (i : Nat) (b : BundleOptions), idx ≤ i → i < j →
        bs[i - idx]? = some b →
        env.isEnableHermesManaged b.platform = true →
        ∃ q : Nat, q < p ∧
          (hermesLoop env bs os idx).1[q]? = some (.hermesCompileEnd i) := by
  intro bs
  induction bs with
  | nil =>
    intro os idx p j c m mi hp
    simp [hermesLoop] at hp
  | cons b₀ bs ih =>
    intro os idx p j c m mi hp i b hi hij hb hman
    cases os with
    | nil => simp [hermesLoop] at hp
    | cons o₀ os =>
      by_cases hcons : env.engineConsistent b₀.platform (env.isEnableHermesManaged b₀.platform)
        = true
      · by_cases hman₀ : env.isEnableHermesManaged b₀.platform = true
        · rcases hh : env.hermesResult idx with msg | ⟨hbc, sm⟩
          · -- Hermes compile of the head rejects: the loop aborts after its start
            have hstep := maybeAdd_managed_err env idx b₀ o₀ msg hman₀
              (by rwa [hman₀] at hcons) hh
            rw [hermesLoop_cons_error env b₀ bs o₀ os idx _ (by rw [hstep])] at hp
            rw [hstep] at hp
            rcases p with _ | _ | _ | p <;>
              simp only [List.getElem?_cons_zero, List.getElem?_cons_succ,
                Option.some.injEq] at hp
            · cases hp
            · cases hp
            · rcases hp with ⟨hj, -⟩
              omega
            · simp at hp
          · -- head compiled: its block is check, log, start idx, end idx
            have hstep := maybeAdd_managed_ok env idx b₀ o₀ hbc sm hman₀
              (by rwa [hman₀] at hcons) hh
            rw [hermesLoop_cons_ok env b₀ bs o₀ _ os idx (by rw [hstep])] at hp ⊢
            rw [hstep] at hp ⊢
            simp only [List.cons_append, List.nil_append] at hp ⊢
            rcases p with _ | _ | _ | _ | p <;>
              simp only [List.getElem?_cons_zero, List.getElem?_cons_succ,
                Option.some.injEq] at hp
            · cases hp
            · cases hp
            · rcases hp with ⟨hj, -⟩
              omega
            · cases hp
            · rcases Nat.eq_or_lt_of_le hi with hieq | hilt
              · -- i is the head target: its end sits at position 3 of the block
                refine ⟨3, by omega, ?_⟩
                simp [← hieq]
              · -- i is a later target: recurse into the tail
                have hb' : bs[i - (idx + 1)]? = some b := by
                  have h1 : i - idx = (i - (idx + 1)) + 1 := by omega
                  rw [h1] at hb
                  simpa using hb
                obtain ⟨q, hq, hqev⟩ :=
                  ih os (idx + 1) p j c m mi hp i b (by omega) hij hb' hman
                exact ⟨q + 4, by omega, by simpa using hqev⟩
        · -- head not Hermes-managed: its block is just the engine check
          have hman₀' : env.isEnableHermesManaged b₀.platform = false := by
            simpa using hman₀
          have hstep := maybeAdd_not_managed env idx b₀ o₀ hman₀'
            (by rwa [hman₀'] at hcons)
          rw [hermesLoop_cons_ok env b₀ bs o₀ _ os idx (by rw [hstep])] at hp ⊢
          rw [hstep] at hp ⊢
          simp only [List.cons_append, List.nil_append] at hp ⊢
          rcases p with _ | p <;>
            simp only [List.getElem?_cons_zero, List.getElem?_cons_succ,
              Option.some.injEq] at hp
          · cases hp
          · rcases Nat.eq_or_lt_of_le hi with hieq | hilt
            · -- the head cannot be the target i: i is Hermes-managed, the head is not
              exfalso
              have : b = b₀ := by
                have h0 : i - idx = 0 := by omega
                rw [h0] at hb
                simpa using hb.symm
              rw [this, hman₀'] at hman
              cases hman
            · have hb' : bs[i - (idx + 1)]? = some b := by
                have h1 : i - idx = (i - (idx + 1)) + 1 := by omega
                rw [h1] at hb
                simpa using hb
              obtain ⟨q, hq, hqev⟩ :=
                ih os (idx + 1) p j c m mi hp i b (by omega) hij hb' hman
              exact ⟨q + 1, by omega, by simpa using hqev⟩
      · -- engine check of the head rejects: the loop aborts with just the check
        have hfail : env.engineConsistent b₀.platform (env.isEnableHermesManaged b₀.platform)
            = false := by
          simpa using hcons
        have hstep := maybeAdd_engine_fail env idx b₀ o₀ hfail
        rw [hermesLoop_cons_error env b₀ bs o₀ os idx _ (by rw [hstep])] at hp
        rw [hstep] at hp
        rcases p with _ | p <;>
          simp only [List.getElem?_cons_zero, List.getElem?_cons_succ,
            Option.some.injEq] at hp
        · cases hp
        · simp at hp

/-- If every target before position `k` passes its engine check (and its
Hermes compile, when applicable) but target `k` fails the engine check, the
loop stops with the engine-mismatch error naming the config file, after
emitting the failing target's check event and no bytecode compilation at or
beyond position `k`. -/
lemma hermesLoop_first_engine_fail (env : Env) :
    ∀ (k : Nat) (bs : List BundleOptions) (os : List BundleOutput) (idx : Nat)
      (b : BundleOptions),
      bs[k]? = some b → k < os.length →
      (∀ (n : Nat) (bn : BundleOptions), n < k → bs[n]? = some bn →
        env.engineConsistent bn.platform (env.isEnableHermesManaged bn.platform) = true ∧
        (env.isEnableHermesManaged bn.platform = true →
          (env.hermesResult (idx + n)).isOk = true)) →
      env.engineConsistent b.platform (env.isEnableHermesManaged b.platform) = false →
      (hermesLoop env bs os idx).2 =
          .error (.inconsistentEngine (configFilePath env) b.platform) ∧
      (∀ (jj : Nat) (c m : String) (mi : Option Bool),
        Event.hermesCompileStart jj c m mi ∈ (hermesLoop env bs os idx).1 → jj < idx + k) ∧
      Event.engineCheckCall (configFilePath env) b.platform
          (env.isEnableHermesManaged b.platform) ∈ (hermesLoop env bs os idx).1 := by
  intro k
  induction k with
  | zero =>
    intro bs os idx b hb hos _ hfail
    cases bs with
    | nil => simp at hb
    | cons b₀ bs =>
      cases os with
      | nil => simp at hos
      | cons o₀ os =>
        have hb0 : b₀ = b := by simpa using hb
        subst hb0
        have hstep := maybeAdd_engine_fail env idx b₀ o₀ hfail
        rw [hermesLoop_cons_error env b₀ bs o₀ os idx _ (by rw [hstep])]
        rw [hstep]
        refine ⟨rfl, ?_, by simp⟩
        intro jj c m mi hmem
        simp at hmem
  | succ n ih =>
    intro bs os idx b hb hos hprev hfail
    cases bs with
    | nil => simp at hb
    | cons b₀ bs =>
      cases os with
      | nil => simp at hos
      | cons o₀ os =>
        obtain ⟨hcons₀, hherm₀⟩ := hprev 0 b₀ (Nat.succ_pos n) (by simp)
        have hb' : bs[n]? = some b := by simpa using hb
        have hos' : n < os.length := by simpa using hos
        have hprev' : ∀ (q : Nat) (bn : BundleOptions), q < n → bs[q]? = some bn →
            env.engineConsistent bn.platform (env.isEnableHermesManaged bn.platform) = true ∧
            (env.isEnableHermesManaged bn.platform = true →
              (env.hermesResult (idx + 1 + q)).isOk = true) := by
          intro q bn hq hbn
          have hres := hprev (q + 1) bn (by omega) (by simpa using hbn)
          have harith : idx + (q + 1) = idx + 1 + q := by omega
          rwa [harith] at hres
        obtain ⟨h1, h2, h3⟩ := ih bs os (idx + 1) b hb' hos' hprev' hfail
        by_cases hman₀ : env.isEnableHermesManaged b₀.platform = true
        · have hok := hherm₀ hman₀
          rcases hh : env.hermesResult idx with msg | ⟨hbc, sm⟩
          · rw [show idx + 0 = idx by omega, hh] at hok
            cases hok
          · have hstep := maybeAdd_managed_ok env idx b₀ o₀ hbc sm hman₀
              (by rwa [hman₀] at hcons₀) hh
            have heq := hermesLoop_cons_ok env b₀ bs o₀ _ os idx (by rw [hstep])
            refine ⟨?_, ?_, ?_⟩
            · rw [heq, h1]
            · intro jj c m mi hmem
              rw [heq] at hmem
              rcases List.mem_append.mp hmem with hmem | hmem
              · rw [hstep] at hmem
                simp only [List.mem_cons] at hmem
                rcases hmem with hmem | hmem | hmem | hmem | hmem <;>
                  (cases hmem <;> omega)
              · have := h2 jj c m mi hmem
                omega
            · rw [heq]
              exact List.mem_append_right _ h3
        · have hman₀' : env.isEnableHermesManaged b₀.platform = false := by
            simpa using hman₀
          have hstep := maybeAdd_not_managed env idx b₀ o₀ hman₀'
            (by rwa [hman₀'] at hcons₀)
          have heq := hermesLoop_cons_ok env b₀ bs o₀ _ os idx (by rw [hstep])
          refine ⟨?_, ?_, ?_⟩
          · rw [heq, h1]
          · intro jj c m mi hmem
            rw [heq] at hmem
            rcases List.mem_append.mp hmem with hmem | hmem
            · rw [hstep] at hmem
              simp at hmem
            · have := h2 jj c m mi hmem
              omega
          · rw [heq]
            exact List.mem_append_right _ h3

/-- All the Metro builds for `bs` (tried from absolute position `idx`)
resolve when the corresponding oracle results are successes. -/
lemma phase1Results_all_ok (env : Env) (buildID : String) :
    ∀ (bs : List BundleOptions) (idx : Nat),
      (∀ k, k < bs.length → (env.buildResult (idx + k)).isOk = true) →
      ∀ r ∈ phase1Results env buildID idx bs, ∃ o, r = Except.ok o := by
  intro bs
  induction bs with
  | nil => intro idx _ r hr; simp [phase1Results] at hr
  | cons b bs ih =>
    intro idx h r hr
    simp only [phase1Results, List.mem_cons] at hr
    rcases hr with rfl | hr
    · have h0 := h 0 (by simp)
      rw [show idx + 0 = idx by omega] at h0
      rcases hb : env.buildResult idx with msg | ⟨c, m⟩
      · rw [hb] at h0
        cases h0
      · exact ⟨_, by rw [buildAsync_result_spec, hb]⟩
    · refine ih (idx + 1) ?_ r hr
      intro k hk
      have hres := h (k + 1) (by simpa using hk)
      rwa [show idx + (k + 1) = idx + 1 + k by omega] at hres

/-- Counts of reporter events in one quiet, resolved build trace. -/
lemma buildAsync_trace_quiet_ok_counts (env : Env) (buildID : String) (idx : Nat)
    (bundle : BundleOptions) (hq : env.quiet = true)
    (hok : (env.buildResult idx).isOk = true) :
    (buildAsync env buildID idx bundle).1.countP isProgressEvent = 0 ∧
    (buildAsync env buildID idx bundle).1.countP (isStartedFor buildID) = 1 ∧
    (buildAsync env buildID idx bundle).1.countP (isDoneFor buildID) = 1 := by
  rcases hb : env.buildResult idx with msg | ⟨c, m⟩
  · rw [hb] at hok
    cases hok
  · rw [buildAsync_trace_spec, hb, hq]
    simp [List.countP_cons, isProgressEvent, isStartedFor, isDoneFor]

/-- Every reporter event a build trace carries uses the shared build
identifier. -/
lemma buildAsync_trace_bid (env : Env) (buildID : String) (idx : Nat)
    (bundle : BundleOptions) :
    ∀ e ∈ (buildAsync env buildID idx bundle).1,
      ∀ bb, reportBid e = some bb → bb = buildID := by
  intro e he bb hbb
  rw [buildAsync_trace_spec] at he
  rcases List.mem_cons.mp he with rfl | he
  · simpa [reportBid] using hbb.symm
  rcases List.mem_cons.mp he with rfl | he
  · simp [reportBid] at hbb
  rcases List.mem_append.mp he with he | he
  · split at he
    · simp at he
    · rcases List.mem_map.mp he with ⟨p, -, rfl⟩
      simpa [reportBid] using hbb.symm
  · split at he
    · simp at he
    · rcases List.mem_cons.mp he with rfl | he
      · simp [reportBid] at hbb
      rcases List.mem_cons.mp he with rfl | he
      · simpa [reportBid] using hbb.symm
      simp at he

lemma phase1_flatten_bid (env : Env) (buildID : String) :
    ∀ (bs : List BundleOptions) (idx : Nat),
      ∀ e ∈ (phase1Traces env buildID idx bs).flatten,
        ∀ bb, reportBid e = some bb → bb = buildID := by
  intro bs
  induction bs with
  | nil => intro idx e he; simp [phase1Traces] at he
  | cons b bs ih =>
    intro idx e he
    simp only [phase1Traces, List.flatten_cons, List.mem_append] at he
    rcases he with he | he
    · exact buildAsync_trace_bid env buildID idx b e he
    · exact ih (idx + 1) e he

/-- Counts of reporter events across all quiet, resolved build traces. -/
lemma phase1_flatten_quiet_counts (env : Env) (buildID : String) (hq : env.quiet = true) :
    ∀ (bs : List BundleOptions) (idx : Nat),
      (∀ k, k < bs.length → (env.buildResult (idx + k)).isOk = true) →
      ((phase1Traces env buildID idx bs).flatten.countP isProgressEvent = 0 ∧
       (phase1Traces env buildID idx bs).flatten.countP (isStartedFor buildID) = bs.length ∧
       (phase1Traces env buildID idx bs).flatten.countP (isDoneFor buildID) = bs.length) := by
  intro bs
  induction bs with
  | nil => intro idx _; simp [phase1Traces]
  | cons b bs ih =>
    intro idx h
    have h0 := h 0 (by simp)
    rw [show idx + 0 = idx by omega] at h0
    obtain ⟨c1, c2, c3⟩ := buildAsync_trace_quiet_ok_counts env buildID idx b hq h0
    have hrec : ∀ k, k < bs.length → (env.buildResult (idx + 1 + k)).isOk = true := by
      intro k hk
      have hres := h (k + 1) (by simpa using hk)
      rwa [show idx + (k + 1) = idx + 1 + k by omega] at hres
    obtain ⟨d1, d2, d3⟩ := ih (idx + 1) hrec
    simp only [phase1Traces, List.flatten_cons, List.countP_append, List.length_cons]
    omega

/-- `bundleAsync` unfolded in the case where every Metro build resolved. -/
lemma bundleAsync_spec_ok (env : Env) (buildID : String) (bundles : List BundleOptions)
    (schedule : List Nat) (mids : List BundleOutput)
    (h : collectResults (phase1Results env buildID 0 bundles) = .ok mids) :
    bundleAsync env buildID bundles schedule =
      (scheduleMerge (phase1Traces env buildID 0 bundles) schedule ++
         ((hermesLoop env bundles mids 0).1 ++ [.metroServerEnd]),
       (hermesLoop env bundles mids 0).2) := by
  simp [bundleAsync, h]

/-- `bundleAsync` unfolded in the case where some Metro build rejected. -/
lemma bundleAsync_spec_err (env : Env) (buildID : String) (bundles : List BundleOptions)
    (schedule : List Nat) (e : BundleError)
    (h : collectResults (phase1Results env buildID 0 bundles) = .error e) :
    bundleAsync env buildID bundles schedule =
      (scheduleMerge (phase1Traces env buildID 0 bundles) schedule ++ [.metroServerEnd],
       .error e) := by
  simp [bundleAsync, h]

/-- A singleton shutdown trace contains no Hermes compile start. -/
lemma singleton_end_no_start (k j : Nat) (c m : String) (mi : Option Bool) :
    ¬ ([Event.metroServerEnd][k]? = some (.hermesCompileStart j c m mi)) := by
  intro h
  rcases k with _ | k <;> simp at h

/-- A resolved batch resolves every stage pointwise: at each position the
Metro build resolved and the Hermes step resolved on its output. -/
lemma bundleAsync_ok_pointwise (env : Env) (buildID : String)
    (bundles : List BundleOptions) (schedule : List Nat) (outs : List BundleOutput)
    (hres : (bundleAsync env buildID bundles schedule).2 = .ok outs) :
    outs.length = bundles.length ∧
      ∀ (i : Nat) (b : BundleOptions), bundles[i]? = some b →
        ∃ o o' : BundleOutput,
          (buildAsync env buildID i b).2 = .ok o ∧
          (maybeAddHermesBundleAsync env i b o).2 = .ok o' ∧
          outs[i]? = some o' := by
  rcases hcoll : collectResults (phase1Results env buildID 0 bundles) with e | mids
  · rw [bundleAsync_spec_err env buildID bundles schedule e hcoll] at hres
    cases hres
  · rw [bundleAsync_spec_ok env buildID bundles schedule mids hcoll] at hres
    obtain ⟨hclen, hcidx⟩ := collectResults_ok _ _ hcoll
    have hmidlen : mids.length = bundles.length := by
      rw [hclen, phase1Results_length]
    obtain ⟨holen, hoidx⟩ := hermesLoop_ok_getElem env bundles mids 0 outs hres hmidlen
    refine ⟨holen, ?_⟩
    intro i b hb
    have hpr : (phase1Results env buildID 0 bundles)[i]? =
        some ((buildAsync env buildID i b).2) := by
      simp [phase1Results_getElem?, hb]
    obtain ⟨o, ho1, ho2⟩ := hcidx i _ hpr
    obtain ⟨o', h1, h2⟩ := hoidx i b o hb ho2
    exact ⟨o, o', ho1, by simpa using h2, h1⟩

/-! ### Concrete inputs used by the witnesses and the counterexample -/

/-- Witness environment: every Metro build resolves with fixed code and map,
Android is Hermes-managed, engine checks pass, Hermes compiles resolve, and
quiet mode is on. -/
def envW : Env :=
  { buildResult := fun _ => .ok ("code", "map")
    assets := fun _ => [{ fileHashes := ["h"] }]
    progress := fun _ => [(1, 2)]
    isEnableHermesManaged := fun p => match p with | .android => true | _ => false
    engineConsistent := fun _ _ => true
    hermesResult := fun _ => .ok ([7], "hermes-map")
    quiet := true }

/-- Like `envW` but the engine-consistency check rejects for Android. -/
def envMismatch : Env :=
  { envW with engineConsistent := fun p _ => match p with | .android => false | _ => true }

/-- An Android request with `dev` and `minify` unset. -/
def bundleAndroid : BundleOptions :=
  { entryPoint := "index.js", platform := .android }

/-- An iOS development request. -/
def bundleIos : BundleOptions :=
  { entryPoint := "index.js", platform := .ios, dev := some true }

/-- The request of the C2 counterexample: `minify` unset, `dev: false`, on a
Hermes-managed platform. -/
def bundleC2 : BundleOptions :=
  { entryPoint := "index.js", platform := .android, dev := some false }

/-- A concrete inspector proxy exposing both WebSocket binding methods. -/
def proxyW : InspectorProxy Nat :=
  { hasAddWebSocketListener := true, hasCreateWebSocketListeners := true,
    processRequest := 0 }

/-- Recognises a `buildHermesBundleAsync` invocation carrying the given
minify argument. -/
def isHermesStartWithMinify (mi : Option Bool) : Event → Bool
  | .hermesCompileStart _ _ _ mi' => mi' == mi
  | _ => false

/-! ### Claim theorems -/

/-- C6: the merged `enhanceMiddleware` installed by `runMetroDevServerAsync`
first applies the config's custom enhancer (when present) to the bundler's
native middleware and then wraps the result with the base middleware stack
via `middleware.use`; with no custom enhancer the base stack wraps the
native middleware directly. -/
theorem mergedEnhanceMiddleware_order {α σ : Type} (useBase : α → α)
    (f : α → σ → α) (metroMiddleware : α) (server : σ) :
    mergedEnhanceMiddleware useBase (some f) metroMiddleware server =
        useBase (f metroMiddleware server) ∧
      mergedEnhanceMiddleware useBase none metroMiddleware server =
        useBase metroMiddleware :=
  ⟨rfl, rfl⟩

/-- C8: the minify option passed to the bundler's build operation equals the
request's explicit `minify` value when one is given, and otherwise defaults
to the negation of the request's dev flag (minify exactly when not in dev
mode). -/
theorem buildAsync_minify_defaulting (env : Env) (buildID : String) (idx : Nat)
    (bundle : BundleOptions) :
    ((buildAsync env buildID idx bundle).1[1]? =
        some (.metroBuildCall (mkMetroBundleOptions bundle))) ∧
      (∀ mf : Bool, bundle.minify = some mf → (mkMetroBundleOptions bundle).minify = mf) ∧
      (bundle.minify = none →
        (mkMetroBundleOptions bundle).minify = !(bundle.dev.getD false)) := by
  refine ⟨?_, ?_, ?_⟩
  · rw [buildAsync_trace_spec]
    simp
  · intro mf hmf
    simp [mkMetroBundleOptions, hmf]
  · intro hmf
    simp [mkMetroBundleOptions, hmf, jsNot]

/-- Witness for C8: with `dev` and `minify` unset the build minifies; an
explicit `minify: false` is honored. -/
theorem buildAsync_minify_defaulting_witness :
    (mkMetroBundleOptions bundleAndroid).minify = true ∧
      (mkMetroBundleOptions { bundleAndroid with minify := some false }).minify = false :=
  ⟨(buildAsync_minify_defaulting envW "bundle_0" 0 bundleAndroid).2.2 rfl,
   (buildAsync_minify_defaulting envW "bundle_0" 0
      { bundleAndroid with minify := some false }).2.1 false rfl⟩

/-- C10: the `bundle_build_started` event reports `minify` as
`bundle.minify ?? false` while the build call uses `bundle.minify ?? !bundle.dev`;
with `minify` unset and `dev` false or unset, the event reports `false`
while the build actually minifies. -/
theorem buildStarted_reports_divergent_minify (env : Env) (buildID : String) (idx : Nat)
    (bundle : BundleOptions) :
    ((buildAsync env buildID idx bundle).1[0]? =
        some (.reportStarted buildID
          { bundleType := "bundle", platform := bundle.platform,
            entryFile := bundle.entryPoint, dev := bundle.dev.getD false,
            minify := bundle.minify.getD false })) ∧
      ((buildAsync env buildID idx bundle).1[1]? =
        some (.metroBuildCall (mkMetroBundleOptions bundle))) ∧
      (bundle.minify = none → bundle.dev.getD false = false →
        bundle.minify.getD false = false ∧ (mkMetroBundleOptions bundle).minify = true) := by
  refine ⟨?_, ?_, ?_⟩
  · rw [buildAsync_trace_spec]
    simp
  · rw [buildAsync_trace_spec]
    simp
  · intro h1 h2
    refine ⟨by simp [h1], ?_⟩
    rcases hd : bundle.dev with _ | d
    · simp [mkMetroBundleOptions, h1, jsNot, hd]
    · rw [hd] at h2
      simp only [Option.getD_some] at h2
      subst h2
      simp [mkMetroBundleOptions, h1, jsNot, hd]

/-- Witness for C10: for the Android request with `minify` and `dev` unset
the started event would report `minify = false` although the build minifies. -/
theorem buildStarted_reports_divergent_minify_witness :
    bundleAndroid.minify.getD false = false ∧
      (mkMetroBundleOptions bundleAndroid).minify = true :=
  (buildStarted_reports_divergent_minify envW "bundle_0" 0 bundleAndroid).2.2 rfl rfl

/-- C9: `attachInspectorProxy` prefers `addWebSocketListener` (ignoring
`createWebSocketListeners` even when both exist), falls back to
`createWebSocketListeners`, performs no binding when neither exists while
still inserting the `processRequest` middleware, and always returns the
proxy without error. -/
theorem attachInspectorProxy_feature_detection {ρ : Type} (proxy : InspectorProxy ρ) :
    (proxy.hasAddWebSocketListener = true →
        (attachInspectorProxy proxy).1 =
          [.addWebSocketListener, .middlewareUse proxy.processRequest]) ∧
      (proxy.hasAddWebSocketListener = false → proxy.hasCreateWebSocketListeners = true →
        (attachInspectorProxy proxy).1 =
          [.createWebSocketListeners, .middlewareUse proxy.processRequest]) ∧
      (proxy.hasAddWebSocketListener = false → proxy.hasCreateWebSocketListeners = false →
        (attachInspectorProxy proxy).1 = [.middlewareUse proxy.processRequest]) ∧
      (attachInspectorProxy proxy).2 = proxy := by
  refine ⟨fun h1 => ?_, fun h1 h2 => ?_, fun h1 h2 => ?_, rfl⟩ <;>
    simp [attachInspectorProxy, h1, *]

/-- Witness for C9: with both binding methods available, only the modern
`addWebSocketListener` is used. -/
theorem attachInspectorProxy_feature_detection_witness :
    (attachInspectorProxy proxyW).1 = [.addWebSocketListener, .middlewareUse 0] :=
  (attachInspectorProxy_feature_detection proxyW).1 rfl

/-- C2 (amended): the bytecode compiler is invoked with the request's RAW
`minify` option (`bundle.minify`, undefined when unset) — not the defaulted
flag the bundler build used; the two coincide exactly when `minify` is
explicitly set. -/
theorem hermes_compile_receives_raw_minify (env : Env) (idx : Nat)
    (bundle : BundleOptions) (o : BundleOutput)
    (hman : env.isEnableHermesManaged bundle.platform = true)
    (hcons : env.engineConsistent bundle.platform true = true) :
    (maybeAddHermesBundleAsync env idx bundle o).1[2]? =
        some (.hermesCompileStart idx o.code o.map bundle.minify) ∧
      (∀ mf : Bool, bundle.minify = some mf → (mkMetroBundleOptions bundle).minify = mf) := by
  constructor
  · rcases hh : env.hermesResult idx with msg | ⟨hbc, sm⟩
    · rw [maybeAdd_managed_err env idx bundle o msg hman hcons hh]
      simp
    · rw [maybeAdd_managed_ok env idx bundle o hbc sm hman hcons hh]
      simp
  · intro mf hmf
    simp [mkMetroBundleOptions, hmf]

/-- Witness for the amended C2 at a concrete Hermes-managed request. -/
theorem hermes_compile_receives_raw_minify_witness :
    (maybeAddHermesBundleAsync envW 0 bundleC2 { code := "code", map := "map" }).1[2]? =
      some (.hermesCompileStart 0 "code" "map" none) :=
  (hermes_compile_receives_raw_minify envW 0 bundleC2 { code := "code", map := "map" }
    rfl rfl).1

/-- Counterexample to C2 as stated: for a request with `minify` unset and
`dev: false`, the bundler build minifies (`minify = true`) yet the single
bytecode compile invocation of the batch does NOT receive `minify = true` —
it receives the raw unset option. -/
theorem hermes_compile_minify_counterexample :
    (mkMetroBundleOptions bundleC2).minify = true ∧
      (bundleAsync envW "bundle_0" [bundleC2] []).1.countP isHermesStart = 1 ∧
      (bundleAsync envW "bundle_0" [bundleC2] []).1.countP
          (isHermesStartWithMinify (some true)) = 0 ∧
      (bundleAsync envW "bundle_0" [bundleC2] []).1.countP
          (isHermesStartWithMinify none) = 1 := by
  refine ⟨rfl, ?_, ?_, ?_⟩ <;> rfl

/-- The outputs of the resolved witness batch. -/
def outsW : List BundleOutput :=
  [{ code := "code", map := "map", hermesBytecodeBundle := some [7],
     hermesSourcemap := some "hermes-map", assets := [{ fileHashes := ["h"] }] },
   { code := "code", map := "map", assets := [{ fileHashes := ["h"] }] }]

/-- C1: for every request list, a resolved `bundleAsync` batch returns exactly
one output per request, positionally the end-to-end processing of that
request; `metroServer.end()` appears exactly once in the trace under every
schedule and outcome; and a batch that returned an output array had every
Metro build resolve (so no partial array is ever returned on failure). -/
theorem bundleAsync_shape_and_cleanup (env : Env) (buildID : String)
    (bundles : List BundleOptions) (schedule : List Nat) :
    (bundleAsync env buildID bundles schedule).1.countP isMetroServerEnd = 1 ∧
      (∀ outs : List BundleOutput,
        (bundleAsync env buildID bundles schedule).2 = .ok outs →
          outs.length = bundles.length ∧
          ∀ (i : Nat) (b : BundleOptions), bundles[i]? = some b →
            outs[i]? = processTarget env buildID i b) ∧
      (∀ outs : List BundleOutput,
        (bundleAsync env buildID bundles schedule).2 = .ok outs →
          ∀ i : Nat, i < bundles.length → (env.buildResult i).isOk = true) := by
  have hmerge0 : (scheduleMerge (phase1Traces env buildID 0 bundles) schedule).countP
      isMetroServerEnd = 0 := by
    rw [scheduleMerge_countP, List.countP_eq_zero]
    intro e he
    simp [isPhase1Event_not_end (phase1_flatten_phase1 env buildID bundles 0 e he)]
  have hhermes0 : ∀ os : List BundleOutput,
      (hermesLoop env bundles os 0).1.countP isMetroServerEnd = 0 := by
    intro os
    rw [List.countP_eq_zero]
    intro e he
    simp [isHermesPhaseEvent_not_end (hermesLoop_trace_hermes env bundles os 0 e he)]
  refine ⟨?_, ?_, ?_⟩
  · rcases hcoll : collectResults (phase1Results env buildID 0 bundles) with e | mids
    · rw [bundleAsync_spec_err env buildID bundles schedule e hcoll]
      simp [List.countP_append, hmerge0, isMetroServerEnd]
    · rw [bundleAsync_spec_ok env buildID bundles schedule mids hcoll]
      simp [List.countP_append, hmerge0, hhermes0 mids, isMetroServerEnd]
  · intro outs hres
    obtain ⟨hlen, hpt⟩ := bundleAsync_ok_pointwise env buildID bundles schedule outs hres
    refine ⟨hlen, ?_⟩
    intro i b hb
    obtain ⟨o, o', h1, h2, h3⟩ := hpt i b hb
    rw [h3]
    simp only [processTarget, h1, h2]
  · intro outs hres i hi
    obtain ⟨-, hpt⟩ := bundleAsync_ok_pointwise env buildID bundles schedule outs hres
    obtain ⟨o, o', h1, -, -⟩ := hpt i _ (List.getElem?_eq_getElem hi)
    exact (buildAsync_ok_fields h1).2.2

/-- Witness for C1: the concrete two-target batch ends the server once and
returns two outputs. -/
theorem bundleAsync_shape_and_cleanup_witness :
    (bundleAsync envW "bundle_0" [bundleAndroid, bundleIos] [0, 1, 0]).1.countP
        isMetroServerEnd = 1 ∧
      outsW.length = 2 :=
  ⟨(bundleAsync_shape_and_cleanup envW "bundle_0" [bundleAndroid, bundleIos] [0, 1, 0]).1,
   ((bundleAsync_shape_and_cleanup envW "bundle_0" [bundleAndroid, bundleIos]
      [0, 1, 0]).2.1 outsW rfl).1⟩

/-- C3: in a resolved batch, each output's bytecode fields are populated
exactly when the app configuration Hermes-manages that target's platform. -/
theorem bundleAsync_hermes_fields_iff (env : Env) (buildID : String)
    (bundles : List BundleOptions) (schedule : List Nat) (outs : List BundleOutput)
    (hres : (bundleAsync env buildID bundles schedule).2 = .ok outs) :
    ∀ (i : Nat) (b : BundleOptions), bundles[i]? = some b →
      ∃ o : BundleOutput, outs[i]? = some o ∧
        o.hermesBytecodeBundle.isSome = env.isEnableHermesManaged b.platform ∧
        o.hermesSourcemap.isSome = env.isEnableHermesManaged b.platform := by
  intro i b hb
  obtain ⟨-, hpt⟩ := bundleAsync_ok_pointwise env buildID bundles schedule outs hres
  obtain ⟨o, o', h1, h2, h3⟩ := hpt i b hb
  obtain ⟨hn1, hn2, -⟩ := buildAsync_ok_fields h1
  obtain ⟨hf1, hf2⟩ := maybeAdd_ok_fields h2 hn1 hn2
  exact ⟨o', h3, hf1, hf2⟩

/-- Witness for C3: in the concrete batch the Hermes-managed Android output
carries bytecode fields (and, by evaluation, the iOS one does not). -/
theorem bundleAsync_hermes_fields_iff_witness :
    ∃ o : BundleOutput, outsW[0]? = some o ∧
      o.hermesBytecodeBundle.isSome = envW.isEnableHermesManaged bundleAndroid.platform ∧
      o.hermesSourcemap.isSome = envW.isEnableHermesManaged bundleAndroid.platform :=
  bundleAsync_hermes_fields_iff envW "bundle_0" [bundleAndroid, bundleIos] [0, 1, 0]
    outsW rfl 0 bundleAndroid rfl

/-- C5: in the full `bundleAsync` trace — under any interleaving of the
concurrent Metro builds — a Hermes compilation for target `j` starts only
after the Hermes compilation of every earlier Hermes-managed target `i` has
ended. -/
theorem bundleAsync_sequential_hermes (env : Env) (buildID : String)
    (bundles : List BundleOptions) (schedule : List Nat) (p j : Nat)
    (c m : String) (mi : Option Bool)
    (hp : (bundleAsync env buildID bundles schedule).1[p]? =
      some (.hermesCompileStart j c m mi))
    (i : Nat) (b : BundleOptions) (hij : i < j) (hb : bundles[i]? = some b)
    (hman : env.isEnableHermesManaged b.platform = true) :
    ∃ q : Nat, q < p ∧
      (bundleAsync env buildID bundles schedule).1[q]? =
        some (.hermesCompileEnd i) := by
  have hAfact : ∀ e ∈ scheduleMerge (phase1Traces env buildID 0 bundles) schedule,
      isPhase1Event e = true := fun e he =>
    phase1_flatten_phase1 env buildID bundles 0 e ((scheduleMerge_mem _ _ e).mp he)
  rcases hcoll : collectResults (phase1Results env buildID 0 bundles) with e | mids
  · rw [bundleAsync_spec_err env buildID bundles schedule e hcoll] at hp
    exfalso
    rcases Nat.lt_or_ge p
        (scheduleMerge (phase1Traces env buildID 0 bundles) schedule).length with hlt | hge
    · rw [List.getElem?_append_left hlt] at hp
      have := hAfact _ (List.getElem?_mem hp)
      simp [isPhase1Event] at this
    · rw [List.getElem?_append_right hge] at hp
      exact singleton_end_no_start _ j c m mi hp
  · rw [bundleAsync_spec_ok env buildID bundles schedule mids hcoll] at hp ⊢
    set A := scheduleMerge (phase1Traces env buildID 0 bundles) schedule with hA
    set B := (hermesLoop env bundles mids 0).1 with hB
    rcases Nat.lt_or_ge p A.length with hlt | hge
    · exfalso
      rw [List.getElem?_append_left hlt] at hp
      have := hAfact _ (List.getElem?_mem hp)
      simp [isPhase1Event] at this
    · rw [List.getElem?_append_right hge] at hp
      rcases Nat.lt_or_ge (p - A.length) B.length with hlt2 | hge2
      · rw [List.getElem?_append_left hlt2] at hp
        obtain ⟨q, hq, hqev⟩ := hermesLoop_start_after_end env bundles mids 0
          (p - A.length) j c m mi hp i b (Nat.zero_le i) hij (by simpa using hb) hman
        refine ⟨A.length + q, by omega, ?_⟩
        rw [List.getElem?_append_right (by omega : A.length ≤ A.length + q),
          show A.length + q - A.length = q by omega,
          List.getElem?_append_left (by omega : q < B.length)]
        exact hqev
      · exfalso
        rw [List.getElem?_append_right hge2] at hp
        exact singleton_end_no_start _ j c m mi hp

/-- Witness for C5: in the concrete two-Hermes-target batch, the compilation
start of target 1 (at trace position 14) is preceded by the compilation end
of target 0. -/
theorem bundleAsync_sequential_hermes_witness :
    ∃ q : Nat, q < 14 ∧
      (bundleAsync envW "bundle_0" [bundleAndroid, bundleAndroid] []).1[q]? =
        some (.hermesCompileEnd 0) :=
  bundleAsync_sequential_hermes envW "bundle_0" [bundleAndroid, bundleAndroid] []
    14 1 "code" "map" none rfl 0 bundleAndroid (by omega) rfl rfl

/-- C7: with the quiet flag set and every Metro build resolving, no
`bundle_transform_progressed` event is reported, while exactly one
`bundle_build_started` and one `bundle_build_done` event per target are,
and every reporter event carries the invocation's shared build identifier. -/
theorem bundleAsync_quiet_suppresses_progress (env : Env) (buildID : String)
    (bundles : List BundleOptions) (schedule : List Nat)
    (hq : env.quiet = true)
    (hok : ∀ i : Nat, i < bundles.length → (env.buildResult i).isOk = true) :
    (bundleAsync env buildID bundles schedule).1.countP isProgressEvent = 0 ∧
      (bundleAsync env buildID bundles schedule).1.countP (isStartedFor buildID) =
        bundles.length ∧
      (bundleAsync env buildID bundles schedule).1.countP (isDoneFor buildID) =
        bundles.length ∧
      (∀ e ∈ (bundleAsync env buildID bundles schedule).1,
        ∀ bb, reportBid e = some bb → bb = buildID) := by
  obtain ⟨mids, hcoll⟩ := collectResults_all_ok _
    (phase1Results_all_ok env buildID bundles 0 (by simpa using hok))
  rw [bundleAsync_spec_ok env buildID bundles schedule mids hcoll]
  obtain ⟨c1, c2, c3⟩ :=
    phase1_flatten_quiet_counts env buildID hq bundles 0 (by simpa using hok)
  have hmerge : ∀ pcl : Event → Bool,
      (scheduleMerge (phase1Traces env buildID 0 bundles) schedule).countP pcl =
        (phase1Traces env buildID 0 bundles).flatten.countP pcl :=
    fun pcl => scheduleMerge_countP _ _ pcl
  have hhermes0 : ∀ pcl : Event → Bool,
      (∀ e : Event, isHermesPhaseEvent e = true → pcl e = false) →
      (hermesLoop env bundles mids 0).1.countP pcl = 0 := by
    intro pcl hph
    rw [List.countP_eq_zero]
    intro e he
    simp [hph e (hermesLoop_trace_hermes env bundles mids 0 e he)]
  refine ⟨?_, ?_, ?_, ?_⟩
  · simp [List.countP_append, hmerge, c1, isProgressEvent,
      hhermes0 isProgressEvent
        (fun e h => reportBid_none_not_progress (isHermesPhaseEvent_not_report h))]
  · simp [List.countP_append, hmerge, c2, isStartedFor,
      hhermes0 (isStartedFor buildID)
        (fun e h => reportBid_none_not_started (isHermesPhaseEvent_not_report h))]
  · simp [List.countP_append, hmerge, c3, isDoneFor,
      hhermes0 (isDoneFor buildID)
        (fun e h => reportBid_none_not_done (isHermesPhaseEvent_not_report h))]
  · intro e he bb hbb
    rcases List.mem_append.mp he with he | he
    · exact phase1_flatten_bid env buildID bundles 0 e
        ((scheduleMerge_mem _ _ e).mp he) bb hbb
    · rcases List.mem_append.mp he with he | he
      · rw [isHermesPhaseEvent_not_report
          (hermesLoop_trace_hermes env bundles mids 0 e he)] at hbb
        cases hbb
      · rcases List.mem_singleton.mp he with rfl
        cases hbb

/-- Witness for C7: in the concrete quiet two-target batch, no progress event
and exactly two started and two done events are reported. -/
theorem bundleAsync_quiet_suppresses_progress_witness :
    (bundleAsync envW "bundle_0" [bundleAndroid, bundleIos] [1, 0]).1.countP
        isProgressEvent = 0 ∧
      (bundleAsync envW "bundle_0" [bundleAndroid, bundleIos] [1, 0]).1.countP
        (isStartedFor "bundle_0") = 2 ∧
      (bundleAsync envW "bundle_0" [bundleAndroid, bundleIos] [1, 0]).1.countP
        (isDoneFor "bundle_0") = 2 :=
  ⟨(bundleAsync_quiet_suppresses_progress envW "bundle_0" [bundleAndroid, bundleIos]
      [1, 0] rfl (fun _ _ => rfl)).1,
   (bundleAsync_quiet_suppresses_progress envW "bundle_0" [bundleAndroid, bundleIos]
      [1, 0] rfl (fun _ _ => rfl)).2.1,
   (bundleAsync_quiet_suppresses_progress envW "bundle_0" [bundleAndroid, bundleIos]
      [1, 0] rfl (fun _ _ => rfl)).2.2.1⟩

/-- C4: with every Metro build resolved and every earlier target passing its
engine check (and Hermes compile, when applicable), a Hermes-managed target
whose engine check rejects makes the whole batch fail with the
engine-mismatch error naming the resolved config file, emits that target's
check event, performs no bytecode compilation for that target, and returns
no output array. -/
theorem bundleAsync_engine_mismatch_aborts (env : Env) (buildID : String)
    (bundles : List BundleOptions) (schedule : List Nat) (k : Nat) (b : BundleOptions)
    (hok : ∀ i : Nat, i < bundles.length → (env.buildResult i).isOk = true)
    (hb : bundles[k]? = some b)
    (hman : env.isEnableHermesManaged b.platform = true)
    (hprev : ∀ (n : Nat) (bn : BundleOptions), n < k → bundles[n]? = some bn →
      env.engineConsistent bn.platform (env.isEnableHermesManaged bn.platform) = true ∧
      (env.isEnableHermesManaged bn.platform = true →
        (env.hermesResult n).isOk = true))
    (hfail : env.engineConsistent b.platform true = false) :
    (bundleAsync env buildID bundles schedule).2 =
        .error (.inconsistentEngine (configFilePath env) b.platform) ∧
      (∀ (c m : String) (mi : Option Bool),
        Event.hermesCompileStart k c m mi ∉ (bundleAsync env buildID bundles schedule).1) ∧
      Event.engineCheckCall (configFilePath env) b.platform true ∈
        (bundleAsync env buildID bundles schedule).1 := by
  obtain ⟨mids, hcoll⟩ := collectResults_all_ok _
    (phase1Results_all_ok env buildID bundles 0 (by simpa using hok))
  rw [bundleAsync_spec_ok env buildID bundles schedule mids hcoll]
  have hklen : k < mids.length := by
    obtain ⟨hclen, -⟩ := collectResults_ok _ _ hcoll
    rw [hclen, phase1Results_length]
    obtain ⟨hlt, -⟩ := List.getElem?_eq_some.mp hb
    exact hlt
  obtain ⟨h1, h2, h3⟩ := hermesLoop_first_engine_fail env k bundles mids 0 b hb hklen
    (fun n bn hn hbn => by simpa using hprev n bn hn hbn) (by rwa [hman])
  have hcheck : Event.engineCheckCall (configFilePath env) b.platform true ∈
      (hermesLoop env bundles mids 0).1 := by
    rwa [hman] at h3
  refine ⟨h1, ?_, List.mem_append_right _ (List.mem_append_left _ hcheck)⟩
  intro c m mi hmem
  rcases List.mem_append.mp hmem with hmem | hmem
  · have := phase1_flatten_phase1 env buildID bundles 0 _ ((scheduleMerge_mem _ _ _).mp hmem)
    simp [isPhase1Event] at this
  · rcases List.mem_append.mp hmem with hmem | hmem
    · have := h2 k c m mi hmem
      omega
    · simp at hmem

/-- Witness for C4: in the concrete mismatch batch the Android engine check
rejects, the batch fails with the error naming `app.json`, and the failing
target's check event was emitted. -/
theorem bundleAsync_engine_mismatch_aborts_witness :
    (bundleAsync envMismatch "bundle_0" [bundleIos, bundleAndroid] []).2 =
        .error (.inconsistentEngine "app.json" .android) ∧
      Event.engineCheckCall "app.json" .android true ∈
        (bundleAsync envMismatch "bundle_0" [bundleIos, bundleAndroid] []).1 := by
  have hprev : ∀ (n : Nat) (bn : BundleOptions), n < 1 →
      [bundleIos, bundleAndroid][n]? = some bn →
      envMismatch.engineConsistent bn.platform
        (envMismatch.isEnableHermesManaged bn.platform) = true ∧
      (envMismatch.isEnableHermesManaged bn.platform = true →
        (envMismatch.hermesResult n).isOk = true) := by
    intro n bn hn hbn
    rcases n with _ | n
    · simp only [List.getElem?_cons_zero, Option.some.injEq] at hbn
      subst hbn
      exact ⟨rfl, fun h => absurd h (by decide)⟩
    · omega
  have h := bundleAsync_engine_mismatch_aborts envMismatch "bundle_0"
    [bundleIos, bundleAndroid] [] 1 bundleAndroid (fun _ _ => rfl) rfl rfl hprev rfl
  exact ⟨h.1, h.2.2⟩

end MetroDevServer
